import Mathlib

/-!
Shallow embedding of `scrapesearch.py` (repository 4uffin/scrapesearch).

The network boundary is modelled by an oracle `Nat → outcome` giving the
outcome of each HTTP attempt; the retry loops of `fetch_search_results`
and `scrape_page` are embedded as fuel-indexed recursions that record the
number of requests issued, the list of backoff sleeps performed (in
seconds, in order) and the returned value.  HTML documents are embedded
as ordered trees; BeautifulSoup's `find`, `find_all`, `decompose` and
`get_text(strip=True)` are modelled as preorder traversals.  Python
dictionaries (insertion-ordered) are modelled as association lists with
an insert-or-update operation.
-/

namespace ScrapeSearch

/-! ### Python string primitives -/

/-- Python whitespace characters relevant to `str.split` / `str.strip`. -/
def isPyWs (c : Char) : Bool :=
  c = ' ' || c = '\t' || c = '\n' || c = '\r' || c = '\x0b' || c = '\x0c'

/-- Python truthiness of a string: empty strings are falsy. -/
def pyTruthyStr (s : String) : Bool := !s.isEmpty

/-- Python truthiness of an optional string (`None` and `""` are falsy). -/
def pyTruthyOptStr : Option String → Bool
  | none => false
  | some s => !s.isEmpty

/-- `str.split()` with no arguments: split on whitespace runs, dropping
empty pieces.  `acc` accumulates the current word in reverse. -/
def wordsAux : List Char → List Char → List (List Char)
  | [], acc => if acc.isEmpty then [] else [acc.reverse]
  | c :: cs, acc =>
    if isPyWs c then
      if acc.isEmpty then wordsAux cs [] else acc.reverse :: wordsAux cs []
    else wordsAux cs (c :: acc)

/-- `text.split()` on the character list of a Python string. -/
def pyWords (cs : List Char) : List (List Char) := wordsAux cs []

/-- `' '.join(ws)` on word character lists. -/
def pyJoin : List (List Char) → List Char
  | [] => []
  | [w] => w
  | w :: ws => w ++ ' ' :: pyJoin ws

/-- `str.strip()`: drop leading and trailing whitespace. -/
def pyStrip (cs : List Char) : List Char :=
  ((cs.dropWhile isPyWs).reverse.dropWhile isPyWs).reverse

/-- `str.strip()` on a Lean `String`. -/
def pyStripStr (s : String) : String := String.mk (pyStrip s.data)

/-- `'A' in s` for Python strings: substring containment. -/
def pyInStr (sub s : String) : Bool := decide (sub.data <:+: s.data)

/-- The string branch of `clean_text`: `' '.join(text.split()).strip()`. -/
def clean_text_str (s : String) : String :=
  String.mk (pyStrip (pyJoin (pyWords s.data)))

/-- Whether every character of a word is non-whitespace. -/
def noWs (w : List Char) : Bool := w.all (fun c => !isPyWs c)

/-- No two consecutive whitespace characters anywhere in the list. -/
def noWsRun : List Char → Bool
  | a :: b :: rest => !(isPyWs a && isPyWs b) && noWsRun (b :: rest)
  | _ => true

/-- The first character, when present, is not whitespace. -/
def headNotWs : List Char → Bool
  | [] => true
  | c :: _ => !isPyWs c

/-- The last character, when present, is not whitespace. -/
def lastNotWs (l : List Char) : Bool := headNotWs l.reverse

/-- A Python value as far as `clean_text`'s `isinstance(text, str)` test is
concerned: a string, or one of the non-string values that can reach it. -/
inductive PyVal where
  | str (s : String)
  | pyNone
  | int (n : Int)
  | boolean (b : Bool)
deriving DecidableEq, Repr

/-- Whether a `PyVal` is a string. -/
def PyVal.isStr : PyVal → Bool
  | .str _ => true
  | _ => false

/-- `clean_text(text)`: non-strings map to `""`; strings are
whitespace-normalized (`' '.join(text.split())`) and stripped. -/
def clean_text : PyVal → String
  | .str s => clean_text_str s
  | _ => ""

/-! ### Result-list extraction (`fetch_search_results` inner loop) -/

/-- A search result dictionary `{"url": ..., "title": ..., "snippet": ...}`. -/
structure SearchResult where
  url : String
  title : String
  snippet : String
deriving DecidableEq, Repr

/-- The element selected by `selectors['link']`, with its optional
`href` attribute (`link.get('href')`). -/
structure LinkElem where
  href : Option String
deriving DecidableEq, Repr

/-- One node matched by `selectors['result_link_container']`, with the
results of the three `select_one` calls: the link element, the text of the
title element (when present) and the text of the snippet element. -/
structure Container where
  link : Option LinkElem
  titleElem : Option String
  snippetElem : Option String
deriving DecidableEq, Repr

/-- `link.get('href') if link else None`. -/
def containerHref (c : Container) : Option String :=
  match c.link with
  | some l => l.href
  | none => none

/-- `title_elem.text if title_elem else "No title found"`: the string the
loop actually tests for truthiness and stores as the title. -/
def effectiveTitleText (c : Container) : String :=
  match c.titleElem with
  | some t => t
  | none => "No title found"

/-- The body of the `for link_container in result_links` loop: build a
`SearchResult` when `link_href and title_text` is truthy, else skip. -/
def extractContainer (c : Container) : Option SearchResult :=
  let link_href : Option String := containerHref c
  let title_text : String := effectiveTitleText c
  let snippet_text : String :=
    match c.snippetElem with
    | some t => t
    | none => "No snippet found"
  if pyTruthyOptStr link_href && pyTruthyStr title_text then
    some { url := link_href.getD ""
           title := clean_text_str title_text
           snippet := clean_text_str snippet_text }
  else none

/-! ### `fetch_search_results` retry loop -/

/-- Outcome of one HTTP attempt inside `fetch_search_results`:
a parsed page (its result containers), an HTTP error status from
`raise_for_status`, a `requests.exceptions.Timeout`, or any other
`requests.exceptions.RequestException` (DNS failure, connection refusal). -/
inductive FetchOutcome where
  | success (containers : List Container)
  | httpError (status : Nat)
  | timeout
  | connectionError
deriving DecidableEq, Repr

/-- The transient failures of the search fetch: HTTP 500/503 and timeouts
are retried; everything else returns immediately. -/
def FetchOutcome.isTransient : FetchOutcome → Bool
  | .httpError s => [500, 503].contains s
  | .timeout => true
  | _ => false

/-- Observable trace of one call to `fetch_search_results`: how many HTTP
requests were issued, which backoff sleeps were performed (seconds, in
order), and the returned list. -/
structure FetchTrace where
  attempts : Nat
  sleeps : List Nat
  result : List SearchResult
deriving DecidableEq, Repr

/-- The `for attempt in range(retries)` loop of `fetch_search_results`,
with `fuel` remaining iterations and `attempt` the current index.
On success the containers are folded through the extraction loop (an
empty container list prints a notice and returns `[]`); HTTP 500/503 and
timeouts sleep `2 ** attempt` and retry; any other HTTP error or request
exception returns `[]` at once; an exhausted loop returns `[]`. -/
def fetchGo (oracle : Nat → FetchOutcome) (attempt : Nat) : Nat → FetchTrace
  | 0 => ⟨0, [], []⟩
  | fuel + 1 =>
    match oracle attempt with
    | .success containers =>
      ⟨1, [], if containers.isEmpty then [] else containers.filterMap extractContainer⟩
    | .httpError status =>
      if [500, 503].contains status then
        let t := fetchGo oracle (attempt + 1) fuel
        ⟨t.attempts + 1, 2 ^ attempt :: t.sleeps, t.result⟩
      else ⟨1, [], []⟩
    | .timeout =>
      let t := fetchGo oracle (attempt + 1) fuel
      ⟨t.attempts + 1, 2 ^ attempt :: t.sleeps, t.result⟩
    | .connectionError => ⟨1, [], []⟩

/-- `fetch_search_results(query, engine, timeout, retries)` with the
network modelled by `oracle`. -/
def fetch_search_results (oracle : Nat → FetchOutcome) (retries : Nat) : FetchTrace :=
  fetchGo oracle 0 retries

/-! ### HTML documents and the page-content extractor -/

/-- An HTML node: an element with a tag and children, or a text node. -/
inductive Html where
  | elem (tag : String) (children : List Html)
  | text (s : String)

mutual

/-- `soup.find(t)` on a node: the node itself when its tag is `t`, else
the first match in its subtree (preorder). -/
def findTagH (t : String) : Html → Option Html
  | .text _ => none
  | .elem tag ch => if tag = t then some (.elem tag ch) else findTagL t ch

/-- `soup.find(t)` over a forest: first match in preorder. -/
def findTagL (t : String) : List Html → Option Html
  | [] => none
  | h :: hs =>
    match findTagH t h with
    | some r => some r
    | none => findTagL t hs

end

mutual

/-- `tag.decompose()` on one node: an element whose tag is in `bl`
vanishes whole (descendants included); otherwise its children are pruned
recursively. -/
def pruneH (bl : List String) : Html → List Html
  | .text s => [.text s]
  | .elem tag ch => if bl.contains tag then [] else [.elem tag (pruneL bl ch)]

/-- `tag.decompose()` applied across a forest. -/
def pruneL (bl : List String) : List Html → List Html
  | [] => []
  | h :: hs => pruneH bl h ++ pruneL bl hs

end

mutual

/-- `find_all(ts)` matches contributed by one node: the node itself when
its tag is in `ts`, then the matches of its subtree, in preorder. -/
def findAllH (ts : List String) : Html → List Html
  | .text _ => []
  | .elem tag ch =>
    (if ts.contains tag then [Html.elem tag ch] else []) ++ findAllL ts ch

/-- `find_all(ts)` over a forest, in document (preorder) order. -/
def findAllL (ts : List String) : List Html → List Html
  | [] => []
  | h :: hs => findAllH ts h ++ findAllL ts hs

end

mutual

/-- All element nodes in a node's subtree, the node itself included. -/
def allElemsH : Html → List Html
  | .text _ => []
  | .elem tag ch => Html.elem tag ch :: allElemsL ch

/-- All element nodes of a forest, at any depth. -/
def allElemsL : List Html → List Html
  | [] => []
  | h :: hs => allElemsH h ++ allElemsL hs

end

mutual

/-- All strings in a node's subtree, in document order. -/
def stringsH : Html → List String
  | .text s => [s]
  | .elem _ ch => stringsL ch

/-- All strings of a forest, in document order. -/
def stringsL : List Html → List String
  | [] => []
  | h :: hs => stringsH h ++ stringsL hs

end

/-- `tag.get_text(strip=True)`: every descendant string stripped, empty
results dropped, the rest concatenated. -/
def getTextStrip (h : Html) : String :=
  String.join (((stringsH h).map pyStripStr).filter (fun s => !s.isEmpty))

/-- Tags removed from the content region before text extraction. -/
def BOILERPLATE_TAGS : List String := ["header", "footer", "nav", "aside", "script", "style"]

/-- Tags whose text is gathered from the content region. -/
def CONTENT_TAGS : List String := ["p", "h1", "h2", "h3", "h4", "h5", "h6", "li"]

/-- `soup.find('main') or soup.find('article') or soup.body`. -/
def selectRegion (root : Html) : Option Html :=
  match findTagH "main" root with
  | some m => some m
  | none =>
    match findTagH "article" root with
    | some a => some a
    | none => findTagH "body" root

/-- The children of a node (`tag.contents`); a text node has none. -/
def regionChildren : Html → List Html
  | .text _ => []
  | .elem _ ch => ch

/-- Whether a node is an element whose tag lies in `bl`. -/
def elemTagIn (bl : List String) : Html → Bool
  | .elem tag _ => bl.contains tag
  | .text _ => false

/-- Whether an element's tag is one of the boilerplate tags. -/
def isBoilerElem : Html → Bool := elemTagIn BOILERPLATE_TAGS

/-- The `page_contents` computation of `scrape_page`: select the content
region, prune boilerplate descendants, gather `get_text(strip=True)` of
every content-tag element joined by single spaces; the sentinel when no
region exists. -/
def extractContent (root : Html) : String :=
  match selectRegion root with
  | none => "No content found in main tags."
  | some r =>
    let pruned := pruneL BOILERPLATE_TAGS (regionChildren r)
    String.intercalate " " ((findAllL CONTENT_TAGS pruned).map getTextStrip)

/-- A fetched content page as `scrape_page` sees it: the text of
`soup.title` when present, the `content` attribute of the description
meta tag when present, and the document tree. -/
structure PageDoc where
  titleText : Option String
  metaDescription : Option String
  root : Html

/-- The dictionary returned by a successful `scrape_page` attempt. -/
structure ScrapedPage where
  url : String
  title : String
  description : String
  full_content : String
deriving DecidableEq, Repr

/-- The success path of one `scrape_page` attempt. -/
def extractPage (url : String) (d : PageDoc) : ScrapedPage :=
  { url := url
    title := clean_text_str
      (match d.titleText with
       | some t => pyStripStr t
       | none => "No title found")
    description := clean_text_str
      (match d.metaDescription with
       | some c => c
       | none => "No description found")
    full_content := clean_text_str (extractContent d.root) }

/-! ### `scrape_page` retry loop and skip list -/

/-- The module-level skip list. -/
def DOMAINS_TO_SKIP : List String := ["twitter.com"]

/-- Outcome of one attempt inside `scrape_page`: a parsed page, an HTTP
error status, a timeout, another `RequestException`, or a
non-request exception raised while parsing or extracting content. -/
inductive ScrapeOutcome where
  | success (page : PageDoc)
  | httpError (status : Nat)
  | timeout
  | connectionError
  | extractionError

/-- The failures `scrape_page` classifies as transient in the sense of
the spec (HTTP 500/503 and timeouts). -/
def ScrapeOutcome.isTransient : ScrapeOutcome → Bool
  | .httpError s => [500, 503].contains s
  | .timeout => true
  | _ => false

/-- The outcomes raised as `requests.exceptions.RequestException` (all
network failures, every HTTP error status included). -/
def ScrapeOutcome.isNetworkError : ScrapeOutcome → Bool
  | .httpError _ => true
  | .timeout => true
  | .connectionError => true
  | _ => false

/-- Observable trace of one call to `scrape_page`: HTTP requests issued,
backoff sleeps performed (seconds, in order), and the returned value. -/
structure ScrapeTrace where
  requests : Nat
  sleeps : List Nat
  result : Option ScrapedPage
deriving DecidableEq, Repr

/-- The `for attempt in range(retries)` loop of `scrape_page`: every
`RequestException` sleeps `2 ** attempt` and retries; any other exception
returns `None` at once; an exhausted loop returns `None`. -/
def scrapeGo (url : String) (oracle : Nat → ScrapeOutcome) (attempt : Nat) : Nat → ScrapeTrace
  | 0 => ⟨0, [], none⟩
  | fuel + 1 =>
    match oracle attempt with
    | .success page => ⟨1, [], some (extractPage url page)⟩
    | .extractionError => ⟨1, [], none⟩
    | .httpError _ =>
      let t := scrapeGo url oracle (attempt + 1) fuel
      ⟨t.requests + 1, 2 ^ attempt :: t.sleeps, t.result⟩
    | .timeout =>
      let t := scrapeGo url oracle (attempt + 1) fuel
      ⟨t.requests + 1, 2 ^ attempt :: t.sleeps, t.result⟩
    | .connectionError =>
      let t := scrapeGo url oracle (attempt + 1) fuel
      ⟨t.requests + 1, 2 ^ attempt :: t.sleeps, t.result⟩

/-- `scrape_page(url, verbose, timeout, retries)`: the skip-list check
(`if domain in url`) returns `None` before any request; otherwise the
retry loop runs. -/
def scrape_page (url : String) (oracle : Nat → ScrapeOutcome) (retries : Nat) : ScrapeTrace :=
  if DOMAINS_TO_SKIP.any (fun d => pyInStr d url) then ⟨0, [], none⟩
  else scrapeGo url oracle 0 retries

/-- The collection loop of `process_single_query`: the scheduler appends
`future.result()` only when it is truthy, i.e. not `None`. -/
def collectScraped (urls : List String) (oracle : String → Nat → ScrapeOutcome)
    (retries : Nat) : List ScrapedPage :=
  urls.filterMap (fun u => (scrape_page u (oracle u) retries).result)

/-! ### `process_scraped_data` (Batch Aggregator) -/

/-- A Python dictionary with string keys and values, insertion-ordered:
an association list whose key order is the dictionary's iteration order. -/
abbrev Record : Type := List (String × String)

/-- `field in item`. -/
def dmem (d : Record) (k : String) : Bool := d.any (fun p => p.1 = k)

/-- `item.get(field)`: the stored value, or `None` when absent. -/
def dget (d : Record) (k : String) : Option String :=
  (d.find? (fun p => p.1 = k)).map Prod.snd

/-- `d[k] = v`: update in place when the key exists (keeping its
position), else append at the end — Python dict insertion order. -/
def dinsert (d : Record) (k v : String) : Record :=
  if dmem d k then d.map (fun p => if p.1 = k then (k, v) else p)
  else d ++ [(k, v)]

/-- The body of the `for item in scraped_data` loop of
`process_scraped_data`: the dict comprehension
`{field: item.get(field) for field in fields if field in item}` followed
by the fill loop `if field not in filtered_item: ... = "Field not found"`. -/
def projectItem (item : Record) (fields : List String) : Record :=
  let filtered :=
    fields.foldl (fun acc f => if dmem item f then dinsert acc f ((dget item f).getD "") else acc) []
  fields.foldl (fun acc f => if dmem acc f then acc else dinsert acc f "Field not found") filtered

/-- `process_scraped_data(scraped_data, fields)`: keep items whose `url`
is present and truthy, project each onto `fields`, preserving order. -/
def process_scraped_data (data : List Record) (fields : List String) : List Record :=
  data.filterMap (fun item =>
    if pyTruthyOptStr (dget item "url") then some (projectItem item fields) else none)

/-! ### Concrete documents for the content-extraction scenarios -/

/-- The spec scenario `<main><header>nav</header><p>Hello  world</p></main>`
(wrapped in the usual html/body shell). -/
def exampleMainDoc : Html :=
  .elem "html" [.elem "body" [.elem "main"
    [.elem "header" [.text "nav"], .elem "p" [.text "Hello  world"]]]]

/-- A document with both a `<main>` and an `<article>` region. -/
def exampleMainAndArticleDoc : Html :=
  .elem "html" [.elem "body"
    [.elem "article" [.elem "p" [.text "from article"]],
     .elem "main" [.elem "p" [.text "from main"]]]]

/-- A document with an `<article>` region but no `<main>`. -/
def exampleArticleDoc : Html :=
  .elem "html" [.elem "body" [.elem "article" [.elem "p" [.text "from article"]]]]

/-- A document with neither `<main>` nor `<article>`: the body is used. -/
def exampleBodyDoc : Html :=
  .elem "html" [.elem "body" [.elem "p" [.text "from body"]]]

/-- A document with no `<main>`, `<article>` or `<body>` element. -/
def exampleBareDoc : Html :=
  .elem "html" [.elem "div" [.text "loose text"]]

/-- Every whitespace character in the list is a plain space. -/
def onlySpaceWs (l : List Char) : Bool := l.all (fun c => !isPyWs c || c = ' ')

/-! ## Helper lemmas: words, join and strip -/

theorem wordsAux_good (cs : List Char) :
    ∀ acc, noWs acc = true → ∀ w ∈ wordsAux cs acc, w ≠ [] ∧ noWs w = true := by
  induction cs with
  | nil =>
    intro acc hacc w hw
    simp only [wordsAux] at hw
    by_cases h : acc.isEmpty
    · simp [h] at hw
    · rw [if_neg h] at hw
      simp only [List.mem_singleton] at hw
      subst hw
      refine ⟨?_, ?_⟩
      · simp only [List.isEmpty_iff] at h
        simpa using h
      · simpa [noWs] using hacc
  | cons c cs ih =>
    intro acc hacc w hw
    simp only [wordsAux] at hw
    by_cases hc : isPyWs c
    · rw [if_pos hc] at hw
      by_cases h : acc.isEmpty
      · rw [if_pos h] at hw
        exact ih [] rfl w hw
      · rw [if_neg h] at hw
        rcases List.mem_cons.mp hw with hw | hw
        · subst hw
          refine ⟨?_, ?_⟩
          · simp only [List.isEmpty_iff] at h
            simpa using h
          · simpa [noWs] using hacc
        · exact ih [] rfl w hw
    · rw [if_neg hc] at hw
      refine ih (c :: acc) ?_ w hw
      simp only [noWs, List.all_cons] at hacc ⊢
      simp [hacc, hc]

theorem pyWords_good (cs : List Char) : ∀ w ∈ pyWords cs, w ≠ [] ∧ noWs w = true :=
  wordsAux_good cs [] rfl

theorem wordsAux_chunk (w : List Char) :
    ∀ cs acc, noWs w = true → wordsAux (w ++ cs) acc = wordsAux cs (w.reverse ++ acc) := by
  induction w with
  | nil => intro cs acc _; simp
  | cons c w ih =>
    intro cs acc hw
    simp only [noWs, List.all_cons, Bool.and_eq_true, Bool.not_eq_true'] at hw
    have hc : isPyWs c = false := hw.1
    have hw' : noWs w = true := by simpa [noWs] using hw.2
    show wordsAux (c :: (w ++ cs)) acc = _
    simp only [wordsAux, hc, Bool.false_eq_true, if_false]
    rw [ih cs (c :: acc) hw']
    simp

theorem pyWords_pyJoin (ws : List (List Char))
    (h : ∀ w ∈ ws, w ≠ [] ∧ noWs w = true) :
    pyWords (pyJoin ws) = ws := by
  induction ws with
  | nil => rfl
  | cons w ws ih =>
    obtain ⟨hne, hws⟩ := h w (by simp)
    cases ws with
    | nil =>
      show wordsAux (pyJoin [w]) [] = [w]
      have hj : pyJoin [w] = w := rfl
      rw [hj]
      have hch := wordsAux_chunk w [] [] hws
      simp only [List.append_nil] at hch
      rw [hch]
      simp only [wordsAux]
      rw [if_neg (by simpa [List.isEmpty_iff] using hne)]
      simp
    | cons w2 ws2 =>
      have hrest : ∀ x ∈ w2 :: ws2, x ≠ [] ∧ noWs x = true := fun x hx => h x (by simp [hx])
      show wordsAux (pyJoin (w :: w2 :: ws2)) [] = w :: w2 :: ws2
      have hj : pyJoin (w :: w2 :: ws2) = w ++ ' ' :: pyJoin (w2 :: ws2) := rfl
      rw [hj, wordsAux_chunk w _ [] hws]
      simp only [List.append_nil]
      show wordsAux (' ' :: pyJoin (w2 :: ws2)) w.reverse = _
      simp only [wordsAux]
      rw [if_pos (by decide)]
      rw [if_neg (by simpa [List.isEmpty_iff] using hne)]
      rw [List.reverse_reverse]
      exact congrArg (w :: ·) (ih hrest)

theorem noWsRun_cons_of_not_ws (a : Char) (l : List Char) (ha : isPyWs a = false) :
    noWsRun (a :: l) = noWsRun l := by
  cases l with
  | nil => simp [noWsRun]
  | cons b t => simp [noWsRun, ha]

theorem noWsRun_append (w rest : List Char) (hw : noWs w = true)
    (hrest : noWsRun rest = true) : noWsRun (w ++ rest) = true := by
  induction w with
  | nil => simpa
  | cons c w ih =>
    simp only [noWs, List.all_cons, Bool.and_eq_true, Bool.not_eq_true'] at hw
    have hw' : noWs w = true := by simpa [noWs] using hw.2
    rw [List.cons_append, noWsRun_cons_of_not_ws c _ hw.1]
    exact ih hw'

theorem headNotWs_of_noWs (w : List Char) (hw : noWs w = true) : headNotWs w = true := by
  cases w with
  | nil => rfl
  | cons c t =>
    simp only [noWs, List.all_cons, Bool.and_eq_true, Bool.not_eq_true'] at hw
    simp [headNotWs, hw.1]

theorem noWs_reverse (w : List Char) : noWs w.reverse = noWs w := by
  simp [noWs, List.all_eq_true]

theorem headNotWs_append_left (l1 l2 : List Char) (h1 : headNotWs l1 = true)
    (hne : l1 ≠ []) : headNotWs (l1 ++ l2) = true := by
  cases l1 with
  | nil => exact absurd rfl hne
  | cons c t => simpa [headNotWs] using h1

theorem headNotWs_pyJoin (ws : List (List Char))
    (h : ∀ w ∈ ws, w ≠ [] ∧ noWs w = true) : headNotWs (pyJoin ws) = true := by
  cases ws with
  | nil => rfl
  | cons w ws =>
    obtain ⟨hne, hws⟩ := h w (by simp)
    cases ws with
    | nil => exact headNotWs_of_noWs w hws
    | cons w2 ws2 =>
      have hj : pyJoin (w :: w2 :: ws2) = w ++ ' ' :: pyJoin (w2 :: ws2) := rfl
      rw [hj]
      exact headNotWs_append_left w _ (headNotWs_of_noWs w hws) hne

theorem pyJoin_ne_nil (w : List Char) (ws : List (List Char)) (hne : w ≠ []) :
    pyJoin (w :: ws) ≠ [] := by
  cases ws with
  | nil => simpa using hne
  | cons w2 ws2 =>
    have hj : pyJoin (w :: w2 :: ws2) = w ++ ' ' :: pyJoin (w2 :: ws2) := rfl
    rw [hj]
    simp

theorem lastNotWs_pyJoin (ws : List (List Char))
    (h : ∀ w ∈ ws, w ≠ [] ∧ noWs w = true) : lastNotWs (pyJoin ws) = true := by
  induction ws with
  | nil => rfl
  | cons w ws ih =>
    obtain ⟨hne, hws⟩ := h w (by simp)
    cases ws with
    | nil =>
      show headNotWs (pyJoin [w]).reverse = true
      have hj : pyJoin [w] = w := rfl
      rw [hj]
      exact headNotWs_of_noWs w.reverse (by rw [noWs_reverse]; exact hws)
    | cons w2 ws2 =>
      have hrest : ∀ x ∈ w2 :: ws2, x ≠ [] ∧ noWs x = true := fun x hx => h x (by simp [hx])
      have hne2 : w2 ≠ [] := (h w2 (by simp)).1
      show headNotWs (pyJoin (w :: w2 :: ws2)).reverse = true
      have hj : pyJoin (w :: w2 :: ws2) = w ++ ' ' :: pyJoin (w2 :: ws2) := rfl
      rw [hj, List.reverse_append, List.reverse_cons]
      rw [List.append_assoc]
      refine headNotWs_append_left _ _ ?_ ?_
      · exact ih hrest
      · simpa using pyJoin_ne_nil w2 ws2 hne2

theorem noWsRun_pyJoin (ws : List (List Char))
    (h : ∀ w ∈ ws, w ≠ [] ∧ noWs w = true) : noWsRun (pyJoin ws) = true := by
  induction ws with
  | nil => rfl
  | cons w ws ih =>
    obtain ⟨hne, hws⟩ := h w (by simp)
    cases ws with
    | nil =>
      have hj : pyJoin [w] = w := rfl
      rw [hj]
      have := noWsRun_append w [] hws rfl
      simpa using this
    | cons w2 ws2 =>
      have hrest : ∀ x ∈ w2 :: ws2, x ≠ [] ∧ noWs x = true := fun x hx => h x (by simp [hx])
      have hj : pyJoin (w :: w2 :: ws2) = w ++ ' ' :: pyJoin (w2 :: ws2) := rfl
      rw [hj]
      refine noWsRun_append w _ hws ?_
      have hJhead := headNotWs_pyJoin _ hrest
      have hJrun := ih hrest
      cases hJ : pyJoin (w2 :: ws2) with
      | nil => simp [noWsRun]
      | cons b t =>
        rw [hJ] at hJhead hJrun
        simp only [headNotWs, Bool.not_eq_true'] at hJhead
        simp only [noWsRun, hJhead, Bool.and_false, Bool.not_false, Bool.true_and]
        exact hJrun

theorem onlySpaceWs_pyJoin (ws : List (List Char))
    (h : ∀ w ∈ ws, w ≠ [] ∧ noWs w = true) : onlySpaceWs (pyJoin ws) = true := by
  induction ws with
  | nil => rfl
  | cons w ws ih =>
    obtain ⟨hne, hws⟩ := h w (by simp)
    have hwonly : onlySpaceWs w = true := by
      simp only [noWs, List.all_eq_true] at hws
      simp only [onlySpaceWs, List.all_eq_true]
      intro c hc
      simp [hws c hc]
    cases ws with
    | nil => exact hwonly
    | cons w2 ws2 =>
      have hrest : ∀ x ∈ w2 :: ws2, x ≠ [] ∧ noWs x = true := fun x hx => h x (by simp [hx])
      have hj : pyJoin (w :: w2 :: ws2) = w ++ ' ' :: pyJoin (w2 :: ws2) := rfl
      rw [hj]
      simp only [onlySpaceWs, List.all_append, List.all_cons, Bool.and_eq_true] at *
      exact ⟨hwonly, by decide, ih hrest⟩

theorem dropWhile_eq_self_of_headNotWs (l : List Char) (h : headNotWs l = true) :
    l.dropWhile isPyWs = l := by
  cases l with
  | nil => rfl
  | cons c t =>
    simp only [headNotWs, Bool.not_eq_true'] at h
    simp [List.dropWhile_cons, h]

theorem pyStrip_eq_self (l : List Char) (hh : headNotWs l = true)
    (hl : lastNotWs l = true) : pyStrip l = l := by
  unfold pyStrip
  rw [dropWhile_eq_self_of_headNotWs l hh, dropWhile_eq_self_of_headNotWs l.reverse hl,
    List.reverse_reverse]

theorem clean_text_str_eq (s : String) :
    clean_text_str s = String.mk (pyJoin (pyWords s.data)) := by
  unfold clean_text_str
  congr 1
  exact pyStrip_eq_self _ (headNotWs_pyJoin _ (pyWords_good s.data))
    (lastNotWs_pyJoin _ (pyWords_good s.data))

/-! ## Claim theorems -/

/-- C9: `clean_text` is total and idempotent — every non-string input
yields `""`; on strings the output has no leading or trailing whitespace,
no two consecutive whitespace characters, every remaining whitespace
character is a single plain space, and applying `clean_text` again leaves
the output unchanged. -/
theorem c9_clean_text_total_idempotent (v : PyVal) (s : String) :
    (v.isStr = false → clean_text v = "") ∧
    headNotWs (clean_text (.str s)).data = true ∧
    lastNotWs (clean_text (.str s)).data = true ∧
    noWsRun (clean_text (.str s)).data = true ∧
    onlySpaceWs (clean_text (.str s)).data = true ∧
    clean_text (.str (clean_text (.str s))) = clean_text (.str s) := by
  have hgood := pyWords_good s.data
  have hdata : (clean_text (.str s)).data = pyJoin (pyWords s.data) := by
    show (clean_text_str s).data = _
    rw [clean_text_str_eq]
  refine ⟨?_, ?_, ?_, ?_, ?_, ?_⟩
  · intro hv
    cases v with
    | str t => simp [PyVal.isStr] at hv
    | pyNone => rfl
    | int n => rfl
    | boolean b => rfl
  · rw [hdata]; exact headNotWs_pyJoin _ hgood
  · rw [hdata]; exact lastNotWs_pyJoin _ hgood
  · rw [hdata]; exact noWsRun_pyJoin _ hgood
  · rw [hdata]; exact onlySpaceWs_pyJoin _ hgood
  · show clean_text_str (clean_text_str s) = clean_text_str s
    rw [clean_text_str_eq (clean_text_str s)]
    have hd : (clean_text_str s).data = pyJoin (pyWords s.data) := by
      rw [clean_text_str_eq]
    rw [hd, pyWords_pyJoin _ hgood, clean_text_str_eq]

/-- Witness for C9 at the concrete non-string input `None`. -/
theorem c9_clean_text_witness : clean_text PyVal.pyNone = "" :=
  (c9_clean_text_total_idempotent PyVal.pyNone "").1 rfl

/-! ## Helper lemmas: retry loops -/

theorem fetchGo_all_transient (oracle : Nat → FetchOutcome) :
    ∀ fuel a, (∀ k, a ≤ k → k < a + fuel → (oracle k).isTransient = true) →
      fetchGo oracle a fuel = ⟨fuel, (List.range fuel).map (fun i => 2 ^ (a + i)), []⟩ := by
  intro fuel
  induction fuel with
  | zero => intro a _; rfl
  | succ fuel ih =>
    intro a h
    have ha : (oracle a).isTransient = true := h a (by omega) (by omega)
    have hrec := ih (a + 1) (fun k hk1 hk2 => h k (by omega) (by omega))
    have hrange : (List.range (fuel + 1)).map (fun i => 2 ^ (a + i)) =
        2 ^ a :: (List.range fuel).map (fun i => 2 ^ (a + 1 + i)) := by
      rw [List.range_succ_eq_map, List.map_cons, List.map_map]
      refine congrArg₂ _ (by simp) ?_
      refine List.map_congr_left ?_
      intro i _
      show 2 ^ (a + (i + 1)) = 2 ^ (a + 1 + i)
      ring_nf
    cases ho : oracle a with
    | success containers => rw [ho] at ha; simp [FetchOutcome.isTransient] at ha
    | httpError status =>
      rw [ho] at ha
      have hs : [500, 503].contains status = true := ha
      show fetchGo oracle a (fuel + 1) = _
      simp only [fetchGo, ho, hs, if_true, hrec, hrange]
    | timeout =>
      show fetchGo oracle a (fuel + 1) = _
      simp only [fetchGo, ho, hrec, hrange]
    | connectionError => rw [ho] at ha; simp [FetchOutcome.isTransient] at ha

theorem scrapeGo_all_network (url : String) (oracle : Nat → ScrapeOutcome) :
    ∀ fuel a, (∀ k, a ≤ k → k < a + fuel → (oracle k).isNetworkError = true) →
      scrapeGo url oracle a fuel = ⟨fuel, (List.range fuel).map (fun i => 2 ^ (a + i)), none⟩ := by
  intro fuel
  induction fuel with
  | zero => intro a _; rfl
  | succ fuel ih =>
    intro a h
    have ha : (oracle a).isNetworkError = true := h a (by omega) (by omega)
    have hrec := ih (a + 1) (fun k hk1 hk2 => h k (by omega) (by omega))
    have hrange : (List.range (fuel + 1)).map (fun i => 2 ^ (a + i)) =
        2 ^ a :: (List.range fuel).map (fun i => 2 ^ (a + 1 + i)) := by
      rw [List.range_succ_eq_map, List.map_cons, List.map_map]
      refine congrArg₂ _ (by simp) ?_
      refine List.map_congr_left ?_
      intro i _
      show 2 ^ (a + (i + 1)) = 2 ^ (a + 1 + i)
      ring_nf
    cases ho : oracle a with
    | success page => rw [ho] at ha; simp [ScrapeOutcome.isNetworkError] at ha
    | extractionError => rw [ho] at ha; simp [ScrapeOutcome.isNetworkError] at ha
    | httpError status =>
      show scrapeGo url oracle a (fuel + 1) = _
      simp only [scrapeGo, ho, hrec, hrange]
    | timeout =>
      show scrapeGo url oracle a (fuel + 1) = _
      simp only [scrapeGo, ho, hrec, hrange]
    | connectionError =>
      show scrapeGo url oracle a (fuel + 1) = _
      simp only [scrapeGo, ho, hrec, hrange]

theorem scrapeGo_network_prefix_extraction (url : String) (oracle : Nat → ScrapeOutcome) :
    ∀ k fuel a, k < fuel →
      (∀ j, a ≤ j → j < a + k → (oracle j).isNetworkError = true) →
      oracle (a + k) = .extractionError →
      scrapeGo url oracle a fuel = ⟨k + 1, (List.range k).map (fun i => 2 ^ (a + i)), none⟩ := by
  intro k
  induction k with
  | zero =>
    intro fuel a hk _ hext
    cases fuel with
    | zero => omega
    | succ fuel =>
      show scrapeGo url oracle a (fuel + 1) = _
      rw [Nat.add_zero] at hext
      simp only [scrapeGo, hext]
      rfl
  | succ k ih =>
    intro fuel a hk hpre hext
    cases fuel with
    | zero => omega
    | succ fuel =>
      have ha : (oracle a).isNetworkError = true := hpre a (by omega) (by omega)
      have hrec := ih fuel (a + 1) (by omega)
        (fun j hj1 hj2 => hpre j (by omega) (by omega))
        (by rw [show a + 1 + k = a + (k + 1) by omega]; exact hext)
      have hrange : (List.range (k + 1)).map (fun i => 2 ^ (a + i)) =
          2 ^ a :: (List.range k).map (fun i => 2 ^ (a + 1 + i)) := by
        rw [List.range_succ_eq_map, List.map_cons, List.map_map]
        refine congrArg₂ _ (by simp) ?_
        refine List.map_congr_left ?_
        intro i _
        show 2 ^ (a + (i + 1)) = 2 ^ (a + 1 + i)
        ring_nf
      cases ho : oracle a with
      | success page => rw [ho] at ha; simp [ScrapeOutcome.isNetworkError] at ha
      | extractionError => rw [ho] at ha; simp [ScrapeOutcome.isNetworkError] at ha
      | httpError status =>
        show scrapeGo url oracle a (fuel + 1) = _
        simp only [scrapeGo, ho, hrec, hrange]
      | timeout =>
        show scrapeGo url oracle a (fuel + 1) = _
        simp only [scrapeGo, ho, hrec, hrange]
      | connectionError =>
        show scrapeGo url oracle a (fuel + 1) = _
        simp only [scrapeGo, ho, hrec, hrange]

/-- C1 counterexample: with `retries = 1` and a single transient attempt
there is no pair of consecutive attempts, yet both fetch loops perform a
backoff sleep (of `2 ^ 0 = 1` second) after the final failed attempt —
so a delay IS inserted that is not between consecutive attempts. -/
theorem c1_final_sleep_counterexample :
    fetch_search_results (fun _ => FetchOutcome.timeout) 1 = ⟨1, [1], []⟩ ∧
    scrape_page "http://example.com/" (fun _ => ScrapeOutcome.timeout) 1 = ⟨1, [1], none⟩ := by
  constructor <;> decide

/-- C1 (amended): with `retries = N` and only transient failures
(HTTP 500/503 or timeout), both `fetch_search_results` and `scrape_page`
issue exactly N attempts, sleeping `2 ^ k` seconds after the k-th failed
attempt for EVERY k = 0, …, N-1 — the final failed attempt included, so
N sleeps in total, not N-1 — and then return the exhausted-retries
failure value (`[]` resp. `None`). -/
theorem c1_transient_exhaustion (oracleF : Nat → FetchOutcome) (url : String)
    (oracleS : Nat → ScrapeOutcome) (N : Nat)
    (hf : ∀ k, k < N → (oracleF k).isTransient = true)
    (hs : ∀ k, k < N → (oracleS k).isTransient = true)
    (hnoskip : DOMAINS_TO_SKIP.any (fun d => pyInStr d url) = false) :
    fetch_search_results oracleF N = ⟨N, (List.range N).map (fun k => 2 ^ k), []⟩ ∧
    scrape_page url oracleS N = ⟨N, (List.range N).map (fun k => 2 ^ k), none⟩ := by
  constructor
  · have h := fetchGo_all_transient oracleF N 0 (fun k _ hk => hf k (by omega))
    simpa [fetch_search_results] using h
  · have hnet : ∀ k, 0 ≤ k → k < 0 + N → (oracleS k).isNetworkError = true := by
      intro k _ hk
      have := hs k (by omega)
      cases ho : oracleS k <;> rw [ho] at this <;>
        simp_all [ScrapeOutcome.isTransient, ScrapeOutcome.isNetworkError]
    have h := scrapeGo_all_network url oracleS N 0 hnet
    simp only [scrape_page, hnoskip, Bool.false_eq_true, if_false]
    simpa using h

/-- Witness for C1 at `N = 2` with all-timeout oracles. -/
theorem c1_transient_exhaustion_witness :
    fetch_search_results (fun _ => FetchOutcome.timeout) 2 = ⟨2, [1, 2], []⟩ ∧
    scrape_page "http://example.com/" (fun _ => ScrapeOutcome.timeout) 2 = ⟨2, [1, 2], none⟩ := by
  have h := c1_transient_exhaustion (fun _ => FetchOutcome.timeout) "http://example.com/"
    (fun _ => ScrapeOutcome.timeout) 2 (by decide) (by decide) (by decide)
  simpa using h

/-- C2 counterexample: in `scrape_page` an HTTP 404 — a terminal failure
per the claim — is caught by the blanket `RequestException` handler, so
with `retries = 2` the code retries it (two attempts) and sleeps twice,
instead of failing immediately on the first attempt with no sleep. -/
theorem c2_terminal_counterexample :
    scrape_page "http://example.com/" (fun _ => ScrapeOutcome.httpError 404) 2 =
      ⟨2, [1, 2], none⟩ := by
  decide

/-- C2 (amended): only `fetch_search_results` fails immediately on a
terminal failure — an HTTP status other than 500/503 or a non-timeout
request exception ends it on that very attempt with no backoff sleep and
no further attempts.  `scrape_page` instead retries EVERY network request
exception (any HTTP error status, timeouts and connection failures alike)
with backoff until the budget is exhausted; only non-request exceptions
(e.g. a malformed response breaking extraction) end it early. -/
theorem c2_terminal_immediate (oracle1 oracle2 : Nat → FetchOutcome) (s N : Nat)
    (url : String) (oracleS : Nat → ScrapeOutcome) :
    (1 ≤ N → oracle1 0 = .httpError s → [500, 503].contains s = false →
      fetch_search_results oracle1 N = ⟨1, [], []⟩) ∧
    (1 ≤ N → oracle2 0 = .connectionError →
      fetch_search_results oracle2 N = ⟨1, [], []⟩) ∧
    ((∀ k, k < N → (oracleS k).isNetworkError = true) →
      DOMAINS_TO_SKIP.any (fun d => pyInStr d url) = false →
      scrape_page url oracleS N = ⟨N, (List.range N).map (fun k => 2 ^ k), none⟩) := by
  refine ⟨?_, ?_, ?_⟩
  · intro hN h0 hs
    obtain ⟨M, rfl⟩ : ∃ M, N = M + 1 := ⟨N - 1, by omega⟩
    show fetchGo oracle1 0 (M + 1) = _
    simp only [fetchGo, h0, hs, Bool.false_eq_true, if_false]
  · intro hN h0
    obtain ⟨M, rfl⟩ : ∃ M, N = M + 1 := ⟨N - 1, by omega⟩
    show fetchGo oracle2 0 (M + 1) = _
    simp only [fetchGo, h0]
  · intro hnet hnoskip
    have h := scrapeGo_all_network url oracleS N 0 (fun k _ hk => hnet k (by omega))
    simp only [scrape_page, hnoskip, Bool.false_eq_true, if_false]
    simpa using h

/-- Witness for C2: an HTTP 404 ends the search fetch on attempt one with
no sleep, while `scrape_page` retries 404s for the whole budget. -/
theorem c2_terminal_immediate_witness :
    fetch_search_results (fun _ => FetchOutcome.httpError 404) 3 = ⟨1, [], []⟩ ∧
    scrape_page "http://example.com/" (fun _ => ScrapeOutcome.httpError 404) 3 =
      ⟨3, [1, 2, 4], none⟩ := by
  have h := c2_terminal_immediate (fun _ => FetchOutcome.httpError 404)
    (fun _ => FetchOutcome.connectionError) 404 3 "http://example.com/"
    (fun _ => ScrapeOutcome.httpError 404)
  refine ⟨h.1 (by omega) rfl (by decide), ?_⟩
  have h3 := h.2.2 (by decide) (by decide)
  simpa using h3

/-- C6 counterexample: a fetch that succeeds with zero matching result
containers returns exactly the same value (`[]`) as a fetch that dies on
a terminal HTTP 404 and as one that exhausts its retries on timeouts —
the three outcomes are conflated in the return value. -/
theorem c6_conflated_counterexample :
    (fetch_search_results (fun _ => FetchOutcome.success []) 3).result =
      (fetch_search_results (fun _ => FetchOutcome.httpError 404) 3).result ∧
    (fetch_search_results (fun _ => FetchOutcome.success []) 3).result =
      (fetch_search_results (fun _ => FetchOutcome.timeout) 3).result ∧
    (fetch_search_results (fun _ => FetchOutcome.success []) 3).result = [] := by
  refine ⟨?_, ?_, ?_⟩ <;> decide

/-- C6 (amended): a successful search fetch whose container selector
matches zero nodes returns the empty list — and so do a terminal HTTP
error and an exhausted retry budget.  The caller of
`fetch_search_results` cannot distinguish the zero-result success from a
fetch failure by the return value; only the printed diagnostics differ. -/
theorem c6_empty_and_failure_both_empty (oracle1 oracle2 oracle3 : Nat → FetchOutcome)
    (N s : Nat) :
    (1 ≤ N → oracle1 0 = .success [] →
      fetch_search_results oracle1 N = ⟨1, [], []⟩) ∧
    (1 ≤ N → oracle2 0 = .httpError s → [500, 503].contains s = false →
      (fetch_search_results oracle2 N).result = []) ∧
    ((∀ k, k < N → (oracle3 k).isTransient = true) →
      (fetch_search_results oracle3 N).result = []) := by
  refine ⟨?_, ?_, ?_⟩
  · intro hN h0
    obtain ⟨M, rfl⟩ : ∃ M, N = M + 1 := ⟨N - 1, by omega⟩
    show fetchGo oracle1 0 (M + 1) = _
    simp [fetchGo, h0]
  · intro hN h0 hs
    obtain ⟨M, rfl⟩ : ∃ M, N = M + 1 := ⟨N - 1, by omega⟩
    show (fetchGo oracle2 0 (M + 1)).result = _
    have hs' : ¬(s = 500 ∨ s = 503) := by simpa using hs
    simp [fetchGo, h0, hs']
  · intro ht
    have h := fetchGo_all_transient oracle3 N 0 (fun k _ hk => ht k (by omega))
    show (fetchGo oracle3 0 N).result = _
    rw [h]

/-- Witness for C6 at `N = 3`. -/
theorem c6_empty_and_failure_witness :
    fetch_search_results (fun _ => FetchOutcome.success []) 3 = ⟨1, [], []⟩ :=
  (c6_empty_and_failure_both_empty (fun _ => FetchOutcome.success [])
    (fun _ => FetchOutcome.httpError 404) (fun _ => FetchOutcome.timeout) 3 404).1
    (by omega) rfl

/-- C10: a non-request exception during attempt `k` of `scrape_page`
(e.g. a parsing/attribute error while extracting content) makes the
function return `None` on that very attempt: `k + 1` requests were
issued, only the `k` earlier network failures slept, the failing
attempt adds no backoff sleep and the remaining `N - k - 1` attempts
are never used. -/
theorem c10_nonrequest_exception_immediate (url : String)
    (oracle : Nat → ScrapeOutcome) (N k : Nat)
    (hnoskip : DOMAINS_TO_SKIP.any (fun d => pyInStr d url) = false)
    (hk : k < N)
    (hpre : ∀ j, j < k → (oracle j).isNetworkError = true)
    (hext : oracle k = .extractionError) :
    scrape_page url oracle N = ⟨k + 1, (List.range k).map (fun i => 2 ^ i), none⟩ := by
  have h := scrapeGo_network_prefix_extraction url oracle k N 0 hk
    (fun j _ hj => hpre j (by omega)) (by simpa using hext)
  simp only [scrape_page, hnoskip, Bool.false_eq_true, if_false]
  simpa using h

/-- Witness for C10: one timeout then an extraction error with a budget
of 3 yields two requests, one sleep, and `None` — the third attempt is
never made. -/
theorem c10_nonrequest_exception_witness :
    scrape_page "http://example.com/"
      (fun j => if j = 0 then ScrapeOutcome.timeout else ScrapeOutcome.extractionError) 3 =
      ⟨2, [1], none⟩ := by
  have h := c10_nonrequest_exception_immediate "http://example.com/"
    (fun j => if j = 0 then ScrapeOutcome.timeout else ScrapeOutcome.extractionError) 3 1
    (by decide) (by omega) ?_ rfl
  · simpa using h
  · intro j hj
    interval_cases j
    decide

/-- C3 counterexample: a result container whose title element is ABSENT
(so `select_one` returned `None`) but which has a usable link is NOT
dropped: the sentinel `"No title found"` is truthy, so the loop emits a
`SearchResult` for it, contradicting the claim that such a container
contributes no result. -/
theorem c3_absent_title_counterexample :
    extractContainer ⟨some ⟨some "/x"⟩, none, none⟩ =
      some ⟨"/x", "No title found", "No snippet found"⟩ := by
  decide

/-- C3 (amended): a container contributes a `SearchResult` iff its link
href is truthy AND the effective title text — the title element's text
when the element is present, the sentinel `"No title found"` when it is
absent — is non-empty.  Hence an absent title element never causes a
drop (the sentinel title is emitted); a drop on account of the title
happens only when a title element is present with empty text. -/
theorem c3_title_filtering (c : Container) :
    ((extractContainer c).isSome = true ↔
      (pyTruthyOptStr (containerHref c) && pyTruthyStr (effectiveTitleText c)) = true) ∧
    (c.titleElem = none → pyTruthyOptStr (containerHref c) = true →
      (extractContainer c).map SearchResult.title = some "No title found") ∧
    (c.titleElem = some "" → extractContainer c = none) ∧
    (pyTruthyOptStr (containerHref c) = false → extractContainer c = none) := by
  refine ⟨?_, ?_, ?_, ?_⟩
  · by_cases hb : (pyTruthyOptStr (containerHref c) && pyTruthyStr (effectiveTitleText c)) = true
    · simp [extractContainer, hb]
    · simp only [Bool.not_eq_true] at hb
      simp [extractContainer, hb]
  · intro ht hhref
    have he : effectiveTitleText c = "No title found" := by simp [effectiveTitleText, ht]
    have hcond : (pyTruthyOptStr (containerHref c) && pyTruthyStr (effectiveTitleText c)) = true := by
      rw [he, hhref]
      decide
    simp only [extractContainer, hcond, if_true, Option.map_some]
    rw [he]
    rfl
  · intro ht
    have he : effectiveTitleText c = "" := by simp [effectiveTitleText, ht]
    have hcond : (pyTruthyOptStr (containerHref c) && pyTruthyStr (effectiveTitleText c)) = false := by
      have hps : pyTruthyStr "" = false := by decide
      rw [he, hps, Bool.and_false]
    simp [extractContainer, hcond]
  · intro hf
    simp [extractContainer, hf]

/-- Witness for C3 at a concrete container with an absent title element
and link href `"/x"`. -/
theorem c3_title_filtering_witness :
    (extractContainer ⟨some ⟨some "/x"⟩, none, some "a snippet"⟩).map SearchResult.title =
      some "No title found" :=
  (c3_title_filtering ⟨some ⟨some "/x"⟩, none, some "a snippet"⟩).2.1 rfl (by decide)

/-- C7: for every URL written around a host on the skip list,
`scrape_page` returns `None` before issuing any HTTP request (0 requests,
0 sleeps), and such a URL contributes no entry to the collected result
sequence. -/
theorem c7_skip_domains (pre host post : String) (oracle : Nat → ScrapeOutcome)
    (retries : Nat) (hmem : host ∈ DOMAINS_TO_SKIP) :
    scrape_page (pre ++ host ++ post) oracle retries = ⟨0, [], none⟩ ∧
    collectScraped [pre ++ host ++ post] (fun _ => oracle) retries = [] := by
  have hin : pyInStr host (pre ++ host ++ post) = true := by
    simp only [pyInStr, decide_eq_true_eq, String.data_append]
    exact List.infix_append pre.data host.data post.data
  have hany : DOMAINS_TO_SKIP.any (fun d => pyInStr d (pre ++ host ++ post)) = true := by
    rw [List.any_eq_true]
    exact ⟨host, hmem, hin⟩
  have h1 : scrape_page (pre ++ host ++ post) oracle retries = ⟨0, [], none⟩ := by
    unfold scrape_page
    rw [hany]
    simp
  refine ⟨h1, ?_⟩
  simp [collectScraped, h1]

/-- Witness for C7 at the concrete URL `https://twitter.com/status/1`. -/
theorem c7_skip_domains_witness :
    scrape_page ("https://" ++ "twitter.com" ++ "/status/1")
      (fun _ => ScrapeOutcome.timeout) 3 = ⟨0, [], none⟩ :=
  (c7_skip_domains "https://" "twitter.com" "/status/1"
    (fun _ => ScrapeOutcome.timeout) 3 (by decide)).1

/-! ## Helper lemmas: pruning -/

theorem allElemsL_append (l1 l2 : List Html) :
    allElemsL (l1 ++ l2) = allElemsL l1 ++ allElemsL l2 := by
  induction l1 with
  | nil => rfl
  | cons h t ih => simp only [List.cons_append, allElemsL, List.append_eq, ih, List.append_assoc]

mutual

theorem pruneH_no_boiler (bl : List String) (h : Html) :
    ∀ e ∈ allElemsL (pruneH bl h), elemTagIn bl e = false := by
  cases h with
  | text s => intro e he; simp [pruneH, allElemsL, allElemsH] at he
  | elem tag ch =>
    intro e he
    by_cases hb : bl.contains tag = true
    · have hb' : tag ∈ bl := by simpa using hb
      simp [pruneH, hb', allElemsL, allElemsH] at he
    · simp only [Bool.not_eq_true] at hb
      have hb' : tag ∉ bl := by simpa using hb
      rw [show pruneH bl (.elem tag ch) = [.elem tag (pruneL bl ch)] from by
        simp [pruneH, hb']] at he
      simp only [allElemsL, allElemsH, List.append_nil] at he
      rcases List.mem_cons.mp he with rfl | he
      · simpa [elemTagIn] using hb
      · exact pruneL_no_boiler bl ch e he

theorem pruneL_no_boiler (bl : List String) (l : List Html) :
    ∀ e ∈ allElemsL (pruneL bl l), elemTagIn bl e = false := by
  cases l with
  | nil => intro e he; simp [pruneL, allElemsL] at he
  | cons h hs =>
    intro e he
    rw [show pruneL bl (h :: hs) = pruneH bl h ++ pruneL bl hs from rfl,
      allElemsL_append] at he
    rcases List.mem_append.mp he with he | he
    · exact pruneH_no_boiler bl h e he
    · exact pruneL_no_boiler bl hs e he

end

/-- C8: content-region selection and extraction.  When no `<main>`,
`<article>` or `<body>` exists the sentinel is returned; pruning removes
every header/footer/nav/aside/script/style element (so no boilerplate
element survives anywhere in the pruned forest); the spec scenario
`<main><header>nav</header><p>Hello  world</p></main>` yields
full_content `"Hello world"`; and the priority order main > article >
body is exercised on concrete documents. -/
theorem c8_content_extraction (root : Html) (l : List Html) :
    (selectRegion root = none → extractContent root = "No content found in main tags.") ∧
    (∀ e ∈ allElemsL (pruneL BOILERPLATE_TAGS l), isBoilerElem e = false) ∧
    clean_text_str (extractContent exampleMainDoc) = "Hello world" ∧
    extractContent exampleMainAndArticleDoc = "from main" ∧
    extractContent exampleArticleDoc = "from article" ∧
    extractContent exampleBodyDoc = "from body" ∧
    extractContent exampleBareDoc = "No content found in main tags." := by
  refine ⟨?_, ?_, by decide, by decide, by decide, by decide, by decide⟩
  · intro h
    simp [extractContent, h]
  · exact fun e he => pruneL_no_boiler BOILERPLATE_TAGS l e he

/-- Witness for C8 at a concrete document with no content region. -/
theorem c8_content_extraction_witness :
    extractContent (Html.text "x") = "No content found in main tags." :=
  (c8_content_extraction (Html.text "x") []).1 rfl

/-! ## Helper lemmas: dictionary projection -/

theorem dmem_append (d1 d2 : Record) (k : String) :
    dmem (d1 ++ d2) k = (dmem d1 k || dmem d2 k) := by
  simp [dmem, List.any_append]

theorem dinsert_fresh (d : Record) (k v : String) (h : dmem d k = false) :
    dinsert d k v = d ++ [(k, v)] := by
  simp [dinsert, h]

theorem dmem_map_pair (fs : List String) (g : String → String) (k : String) :
    dmem (fs.map (fun f => (f, g f))) k = decide (k ∈ fs) := by
  induction fs with
  | nil => rfl
  | cons f fs ih =>
    simp only [List.map_cons, dmem, List.any_cons] at *
    rw [ih]
    by_cases h1 : f = k
    · subst h1
      simp
    · have h1' : ¬k = f := fun h => h1 h.symm
      simp [h1, h1', List.mem_cons]

theorem dget_map_pair (fs : List String) (g : String → String) (k : String) :
    dget (fs.map (fun f => (f, g f))) k = if k ∈ fs then some (g k) else none := by
  induction fs with
  | nil => simp [dget]
  | cons f fs ih =>
    by_cases hfk : f = k
    · subst hfk
      simp [dget, List.find?_cons]
    · have hkf : ¬k = f := fun h => hfk h.symm
      have hstep : dget ((f :: fs).map (fun f => (f, g f))) k =
          dget (fs.map (fun f => (f, g f))) k := by
        simp only [List.map_cons]
        unfold dget
        rw [List.find?_cons]
        have hd : (decide ((f, g f).1 = k)) = false := by simp [hfk]
        rw [hd]
      rw [hstep, ih]
      simp [List.mem_cons, hkf]

theorem dget_append (d1 d2 : Record) (k : String) :
    dget (d1 ++ d2) k = (dget d1 k).or (dget d2 k) := by
  unfold dget
  rw [List.find?_append]
  cases List.find? (fun p => p.1 = k) d1 <;> simp

theorem foldl_project_fill (fs : List String) :
    ∀ acc : Record, fs.Nodup →
      fs.foldl (fun acc f => if dmem acc f then acc else dinsert acc f "Field not found") acc =
        acc ++ (fs.filter (fun f => !dmem acc f)).map (fun f => (f, "Field not found")) := by
  induction fs with
  | nil => intro acc _; simp
  | cons f fs ih =>
    intro acc hnd
    have hndtail : fs.Nodup := (List.nodup_cons.mp hnd).2
    have hfnotin : f ∉ fs := (List.nodup_cons.mp hnd).1
    rw [List.foldl_cons]
    by_cases hf : dmem acc f = true
    · rw [if_pos hf, ih acc hndtail, List.filter_cons]
      simp [hf]
    · have hf' : dmem acc f = false := by simpa using hf
      rw [if_neg (by simp [hf']), dinsert_fresh acc f _ hf', ih _ hndtail]
      have hcong : fs.filter (fun g => !dmem (acc ++ [(f, "Field not found")]) g) =
          fs.filter (fun g => !dmem acc g) := by
        apply List.filter_congr
        intro g hg
        rw [dmem_append]
        have hne : f ≠ g := fun h => hfnotin (h ▸ hg)
        have : dmem [(f, "Field not found")] g = false := by simp [dmem, hne]
        rw [this, Bool.or_false]
      rw [hcong, List.filter_cons]
      simp [hf', List.append_assoc]

theorem foldl_project_pick (item : Record) (fs : List String) :
    ∀ acc : Record, fs.Nodup → (∀ f ∈ fs, dmem acc f = false) →
      fs.foldl (fun acc f =>
          if dmem item f then dinsert acc f ((dget item f).getD "") else acc) acc =
        acc ++ (fs.filter (fun f => dmem item f)).map (fun f => (f, (dget item f).getD "")) := by
  induction fs with
  | nil => intro acc _ _; simp
  | cons f fs ih =>
    intro acc hnd hfresh
    have hndtail : fs.Nodup := (List.nodup_cons.mp hnd).2
    have hfnotin : f ∉ fs := (List.nodup_cons.mp hnd).1
    rw [List.foldl_cons]
    by_cases hf : dmem item f = true
    · rw [if_pos hf, dinsert_fresh acc f _ (hfresh f (by simp))]
      have hfresh' : ∀ g ∈ fs, dmem (acc ++ [(f, (dget item f).getD "")]) g = false := by
        intro g hg
        rw [dmem_append]
        have h1 : dmem acc g = false := hfresh g (by simp [hg])
        have hne : f ≠ g := fun h => hfnotin (h ▸ hg)
        have h2 : dmem [(f, (dget item f).getD "")] g = false := by simp [dmem, hne]
        rw [h1, h2]
        rfl
      rw [ih _ hndtail hfresh', List.filter_cons]
      simp [hf, List.append_assoc]
    · have hf' : dmem item f = false := by simpa using hf
      rw [if_neg (by simp [hf']), ih acc hndtail (fun g hg => hfresh g (by simp [hg])),
        List.filter_cons]
      simp [hf']

theorem projectItem_eq (item : Record) (fields : List String) (hnd : fields.Nodup) :
    projectItem item fields =
      (fields.filter (fun f => dmem item f)).map (fun f => (f, (dget item f).getD "")) ++
      (fields.filter (fun f => !dmem item f)).map (fun f => (f, "Field not found")) := by
  unfold projectItem
  rw [foldl_project_pick item fields [] hnd (by intro f _; rfl)]
  simp only [List.nil_append]
  rw [foldl_project_fill fields _ hnd]
  have hfilter : fields.filter (fun f => !dmem ((fields.filter (fun g => dmem item g)).map
      (fun g => (g, (dget item g).getD ""))) f) = fields.filter (fun f => !dmem item f) := by
    apply List.filter_congr
    intro f hf
    have hdm : dmem ((fields.filter (fun g => dmem item g)).map
        (fun g => (g, (dget item g).getD ""))) f = dmem item f := by
      rw [dmem_map_pair]
      by_cases hm : dmem item f = true
      · simp [List.mem_filter, hf, hm]
      · have hm' : dmem item f = false := by simpa using hm
        simp [List.mem_filter, hm']
    rw [hdm]
  rw [hfilter]

theorem projectItem_keys (item : Record) (fields : List String) (hnd : fields.Nodup) :
    (projectItem item fields).map Prod.fst =
      fields.filter (fun f => dmem item f) ++ fields.filter (fun f => !dmem item f) := by
  rw [projectItem_eq item fields hnd, List.map_append, List.map_map, List.map_map]
  congr 1
  · exact List.map_congr_left (fun a _ => rfl) |>.trans (List.map_id _)
  · exact List.map_congr_left (fun a _ => rfl) |>.trans (List.map_id _)

/-- C4 counterexample: with requested fields `["title", "url"]` and a
record containing only `url`, the output record's key order is
`["url", "title"]` — the present field first, the sentinel-filled field
appended afterwards — which is NOT the requested order
`["title", "url"]`. -/
theorem c4_field_order_counterexample :
    (process_scraped_data [[("url", "x")]] ["title", "url"]).map
        (fun r => r.map Prod.fst) = [["url", "title"]] ∧
    ["url", "title"] ≠ ["title", "url"] := by
  exact ⟨by decide, by decide⟩

/-- C4 (amended): for a duplicate-free requested field list F, each
output record lists the requested fields that are present in the source
record first, in F's relative order, followed by the requested fields
absent from the source record (sentinel-filled), again in F's relative
order.  The order equals F exactly only when this partition is trivial
(e.g. every requested field is present). -/
theorem c4_field_order (item : Record) (fields : List String) (hnd : fields.Nodup) :
    (projectItem item fields).map Prod.fst =
      fields.filter (fun f => dmem item f) ++ fields.filter (fun f => !dmem item f) :=
  projectItem_keys item fields hnd

/-- Witness for C4 at a record holding only `url`. -/
theorem c4_field_order_witness :
    (projectItem [("url", "x")] ["title", "url"]).map Prod.fst = ["url", "title"] := by
  have h := c4_field_order [("url", "x")] ["title", "url"] (by decide)
  rw [h]
  decide

/-- C5: projection law.  For a duplicate-free requested field list F and
a record R with a truthy `url`: `process_scraped_data [R] F` yields
exactly the one projected record; its keys are a permutation of F; every
requested field maps to R's value when present in R and to the sentinel
`"Field not found"` otherwise; a record with missing or empty `url` is
dropped; and on any input list the retained records appear in input
order, each projected. -/
theorem c5_projection (fields : List String) (R : Record) (hnd : fields.Nodup)
    (hurl : pyTruthyOptStr (dget R "url") = true) :
    process_scraped_data [R] fields = [projectItem R fields] ∧
    List.Perm ((projectItem R fields).map Prod.fst) fields ∧
    (∀ f ∈ fields, dget (projectItem R fields) f =
      some (if dmem R f then (dget R f).getD "" else "Field not found")) ∧
    (∀ R' : Record, pyTruthyOptStr (dget R' "url") = false →
      process_scraped_data [R'] fields = []) ∧
    (∀ data : List Record, process_scraped_data data fields =
      (data.filter (fun item => pyTruthyOptStr (dget item "url"))).map
        (fun item => projectItem item fields)) := by
  refine ⟨?_, ?_, ?_, ?_, ?_⟩
  · simp [process_scraped_data, hurl]
  · rw [projectItem_keys R fields hnd]
    exact List.filter_append_perm _ fields
  · intro f hf
    rw [projectItem_eq R fields hnd, dget_append, dget_map_pair, dget_map_pair]
    by_cases hm : dmem R f = true
    · rw [if_pos (List.mem_filter.mpr ⟨hf, hm⟩)]
      simp [hm]
    · have hm' : dmem R f = false := by simpa using hm
      rw [if_neg (fun hmem => by simp [List.mem_filter, hm'] at hmem)]
      rw [if_pos (List.mem_filter.mpr ⟨hf, by simp [hm']⟩)]
      simp [hm']
  · intro R' hR'
    simp [process_scraped_data, hR']
  · intro data
    induction data with
    | nil => rfl
    | cons item rest ih =>
      by_cases h : pyTruthyOptStr (dget item "url") = true
      · simp [process_scraped_data, List.filter_cons, h] at ih ⊢
        exact ih
      · have h' : pyTruthyOptStr (dget item "url") = false := by simpa using h
        simp [process_scraped_data, List.filter_cons, h'] at ih ⊢
        exact ih

/-- Witness for C5 at `F = ["url", "title"]` and `R = {url: "x"}`. -/
theorem c5_projection_witness :
    process_scraped_data [[("url", "x")]] ["url", "title"] =
      [[("url", "x"), ("title", "Field not found")]] := by
  have h := (c5_projection ["url", "title"] [("url", "x")] (by decide) (by decide)).1
  rw [h]
  decide

end ScrapeSearch
